import Mathlib

/-!
# Verification of the Krypton VM / mark-and-sweep collector core

Shallow embedding of `src/config/end_stup.cpp`: the `GCObject` value model,
the `GarbageCollector` (mark phase + sweep phase over the tracked-object
registry), and the `KryptonVM` fetch-decode-execute loop with its periodic
collection trigger.

Modelling conventions:
* C++ heap pointers become `Nat` handles; the collector's `objects` vector
  becomes an insertion-ordered `List (Nat × GCObject)` owning all object
  state, and the operand stack is a `List Nat` of handles (head = top).
* `double` payloads are modelled as `Rat`.
* C++ exceptions (`throw std::runtime_error("Stack Underflow")`,
  `std::bad_variant_access` from `std::get`) and the undefined behaviour of
  the unchecked `static_cast<NumberObj*>` become `Except VMError`.
* The run loop `while (ip < bytecode.size())` advances `ip` by exactly 1 per
  iteration (none of the jump opcodes is implemented by the switch), so it is
  embedded with a fuel argument set to `bytecode.length`, which is exact:
  fuel exhaustion coincides with the loop condition turning false.
* Two ghost fields (`steps`, the count of executed instructions, and `gcAt`,
  the values of that count at each collector invocation) instrument the
  machine state for the temporal trigger-policy claims; they influence no
  executable behaviour.
-/

namespace Krypton

/-- Payload of a heap object: `NumberObj` carries a `double` (modelled as
`Rat`), `StringObj` carries a string. -/
inductive Payload where
  | number (v : Rat)
  | str (s : String)
deriving DecidableEq, Repr

/-- `struct GCObject { bool marked = false; ... }` with its concrete payload
(`NumberObj` / `StringObj`). -/
structure GCObject where
  marked : Bool
  payload : Payload
deriving DecidableEq, Repr

/-- `enum OpCode` from the source, in declaration order. -/
inductive OpCode where
  | pushNum
  | pushStr
  | add
  | sub
  | mul
  | div
  | print
  | jump
  | jumpIfFalse
  | halt
deriving DecidableEq, Repr

/-- `std::variant<double, std::string, int>` instruction operand. -/
inductive Operand where
  | num (v : Rat)
  | str (s : String)
  | tgt (t : Int)
deriving DecidableEq, Repr

/-- `struct Instruction { OpCode code; std::variant<...> operand; }`. -/
structure Instruction where
  code : OpCode
  operand : Operand
deriving DecidableEq, Repr

namespace GarbageCollector

/-- Mark phase of `GarbageCollector::collect`: every tracked object whose
handle occurs in `roots` gets its mark bit set
(`for (auto* root : roots) if (root) root->marked = true;`). -/
def markRoots (roots : List Nat) (objects : List (Nat × GCObject)) :
    List (Nat × GCObject) :=
  objects.map fun p => if p.1 ∈ roots then (p.1, { p.2 with marked := true }) else p

/-- Sweep phase of `GarbageCollector::collect`: delete and erase every
unmarked object, reset the mark bit of every survivor
(the `while (it != objects.end())` loop). -/
def sweep (objects : List (Nat × GCObject)) : List (Nat × GCObject) :=
  objects.filterMap fun p =>
    if p.2.marked then some (p.1, { p.2 with marked := false }) else none

/-- `GarbageCollector::collect(roots)`: mark phase followed by sweep phase. -/
def collect (roots : List Nat) (objects : List (Nat × GCObject)) :
    List (Nat × GCObject) :=
  sweep (markRoots roots objects)

/-- `GarbageCollector::track(obj)`: `objects.push_back(obj)`. -/
def track (obj : Nat × GCObject) (objects : List (Nat × GCObject)) :
    List (Nat × GCObject) :=
  objects ++ [obj]

end GarbageCollector

/-- One observable output line of the VM / collector. -/
inductive Event where
  | printNum (v : Rat)
  | printStr (s : String)
  | gcDone
  | haltMsg
deriving DecidableEq, Repr

/-- The mutable machine state of `KryptonVM` apart from the instruction
pointer: operand stack (head = top, mirroring `stack.back()`), the
collector's tracked-object registry, the next fresh handle (`new` returning a
fresh address), the emitted output events, and two ghost fields (`steps`,
`gcAt`) instrumenting execution counts for temporal claims. -/
structure Mach where
  stack : List Nat
  objects : List (Nat × GCObject)
  nextId : Nat
  events : List Event
  steps : Nat
  gcAt : List Nat
deriving DecidableEq, Repr

/-- The error surface of a run: the `Stack Underflow` exception thrown by
`KryptonVM::pop`, `std::bad_variant_access` thrown by `std::get` on a
wrong-alternative operand, and the undefined behaviour of dereferencing the
unchecked `static_cast<NumberObj*>` result (modelled as a distinct error). -/
inductive VMError where
  | stackUnderflow
  | badOperand
  | invalidCast
deriving DecidableEq, Repr

/-- Equality of run results is decidable (componentwise). -/
instance {e a : Type} [DecidableEq e] [DecidableEq a] : DecidableEq (Except e a) :=
  fun x y =>
    match x, y with
    | .error u, .error v => decidable_of_iff (u = v) (by simp)
    | .ok u, .ok v => decidable_of_iff (u = v) (by simp)
    | .error _, .ok _ => isFalse (by simp)
    | .ok _, .error _ => isFalse (by simp)

/-- Result of executing one instruction: either continue with the new machine
state, or stop (the `OP_HALT` case returns out of `run`). -/
inductive StepResult where
  | next (m : Mach)
  | halted (m : Mach)
deriving DecidableEq, Repr

namespace KryptonVM

/-- `KryptonVM::pop()`: throw `Stack Underflow` on an empty stack, otherwise
return the top element and the remaining stack. -/
def pop (stack : List Nat) : Except VMError (Nat × List Nat) :=
  match stack with
  | [] => .error .stackUnderflow
  | x :: rest => .ok (x, rest)

/-- `KryptonVM::push(new ...Obj(p))`: allocate a fresh object (mark bit
initialised `false`), push its handle, and register it with
`GarbageCollector::track`. -/
def pushMach (p : Payload) (m : Mach) : Mach :=
  { m with
    stack := m.nextId :: m.stack
    objects := GarbageCollector.track (m.nextId, { marked := false, payload := p }) m.objects
    nextId := m.nextId + 1 }

/-- Dereference a handle in the tracked-object registry (a raw pointer read
in the source; the registry owns all object state in this model). -/
def findObj (id : Nat) (objects : List (Nat × GCObject)) : Option GCObject :=
  (objects.find? fun p => p.1 == id).map (·.2)

/-- Read `->value` through `static_cast<NumberObj*>`: defined only when the
object exists and is a number; anything else is undefined behaviour in the
source, modelled as `VMError.invalidCast`. -/
def asNumber (o : Option GCObject) : Except VMError Rat :=
  match o with
  | some { marked := _, payload := .number v } => .ok v
  | _ => .error .invalidCast

/-- The dispatch `switch (inst.code)` of `KryptonVM::run`, for a single
instruction.  Only `OP_PUSH_NUM`, `OP_PUSH_STR`, `OP_ADD`, `OP_PRINT` and
`OP_HALT` have cases; every other opcode (`OP_SUB`, `OP_MUL`, `OP_DIV`,
`OP_JUMP`, `OP_JUMP_IF_FALSE`) hits `default: break` and does nothing.
The ghost `steps` counter is incremented on every completed execution. -/
def execInstr (i : Instruction) (m : Mach) : Except VMError StepResult :=
  match i.code with
  | .pushNum =>
      match i.operand with
      | .num v => .ok (.next { pushMach (.number v) m with steps := m.steps + 1 })
      | _ => .error .badOperand
  | .pushStr =>
      match i.operand with
      | .str s => .ok (.next { pushMach (.str s) m with steps := m.steps + 1 })
      | _ => .error .badOperand
  | .add =>
      match pop m.stack with
      | .error e => .error e
      | .ok (bId, s1) =>
        match pop s1 with
        | .error e => .error e
        | .ok (aId, s2) =>
          match asNumber (findObj bId m.objects), asNumber (findObj aId m.objects) with
          | .ok bv, .ok av =>
              .ok (.next { pushMach (.number (av + bv)) { m with stack := s2 } with
                            steps := m.steps + 1 })
          | .error e, _ => .error e
          | _, .error e => .error e
  | .print =>
      match pop m.stack with
      | .error e => .error e
      | .ok (id, s1) =>
        match findObj id m.objects with
        | some obj =>
            let e := match obj.payload with
              | .number v => Event.printNum v
              | .str s => Event.printStr s
            .ok (.next { m with stack := s1, events := m.events ++ [e],
                                steps := m.steps + 1 })
        | none => .error .invalidCast
  | .halt =>
      .ok (.halted { m with events := m.events ++ [.haltMsg], steps := m.steps + 1 })
  | _ => .ok (.next { m with steps := m.steps + 1 })

/-- `gc.collect(stack)` as invoked from the run loop: the current operand
stack is the root set; a `[GC] Collection cycle finished.` line is emitted;
the ghost `gcAt` field records the executed-instruction count. -/
def collectStep (m : Mach) : Mach :=
  { m with
    objects := GarbageCollector.collect m.stack m.objects
    events := m.events ++ [.gcDone]
    gcAt := m.gcAt ++ [m.steps] }

/-- The `while (ip < bytecode.size())` loop of `KryptonVM::run`: fetch,
dispatch, `ip++`, and `if (ip % 5 == 0) gc.collect(stack);`.  Since no
implemented opcode modifies `ip` other than the final increment, each
iteration advances `ip` by exactly 1, so fuel `bytecode.length` is exact
(fuel exhaustion coincides with `ip` reaching the program length). -/
def runAux (bc : List Instruction) : Nat → Nat → Mach → Except VMError (Nat × Mach)
  | 0, ip, m => .ok (ip, m)
  | fuel + 1, ip, m =>
    if h : ip < bc.length then
      match execInstr (bc.get ⟨ip, h⟩) m with
      | .error e => .error e
      | .ok (.halted m') => .ok (ip, m')
      | .ok (.next m') =>
          runAux bc fuel (ip + 1) (if (ip + 1) % 5 = 0 then collectStep m' else m')
    else .ok (ip, m)

/-- The machine state of a freshly constructed `KryptonVM`. -/
def initMach : Mach :=
  { stack := [], objects := [], nextId := 0, events := [], steps := 0, gcAt := [] }

/-- `KryptonVM::run()` on a freshly constructed VM: execute from `ip = 0`
until the program is exhausted, `OP_HALT` executes, or an error is thrown.
Returns the final instruction pointer and machine state. -/
def run (bc : List Instruction) : Except VMError (Nat × Mach) :=
  runAux bc bc.length 0 initMach

/-- The full `KryptonVM` object state: loaded bytecode, instruction pointer,
and the rest of the machine state. -/
structure State where
  bytecode : List Instruction
  ip : Nat
  mach : Mach
deriving DecidableEq, Repr

/-- `KryptonVM::loadProgram(program)`: `bytecode = std::move(program);`
(no other member is assigned). -/
def loadProgram (vm : State) (program : List Instruction) : State :=
  { vm with bytecode := program }

end KryptonVM

/-! ## Concrete inputs used by witnesses and counterexamples -/

/-- Program `PUSH_NUM 6; PUSH_NUM 7; MUL` (the assembler's no-operand `emit`
stores the default operand `0.0`). -/
def progMul : List Instruction :=
  [⟨.pushNum, .num 6⟩, ⟨.pushNum, .num 7⟩, ⟨.mul, .num 0⟩]

/-- Final machine state of running `progMul`. -/
def machMul : Mach :=
  { stack := [1, 0]
    objects := [(0, ⟨false, .number 6⟩), (1, ⟨false, .number 7⟩)]
    nextId := 2, events := [], steps := 3, gcAt := [] }

/-- Program `PUSH_NUM 1; PUSH_NUM 0; DIV` — a division whose divisor is 0. -/
def progDiv : List Instruction :=
  [⟨.pushNum, .num 1⟩, ⟨.pushNum, .num 0⟩, ⟨.div, .num 0⟩]

/-- Final machine state of running `progDiv`. -/
def machDiv : Mach :=
  { stack := [1, 0]
    objects := [(0, ⟨false, .number 1⟩), (1, ⟨false, .number 0⟩)]
    nextId := 2, events := [], steps := 3, gcAt := [] }

/-- A five-instruction program whose fifth instruction is `HALT`. -/
def progHalt5 : List Instruction :=
  [⟨.pushNum, .num 1⟩, ⟨.pushNum, .num 2⟩, ⟨.pushNum, .num 3⟩,
   ⟨.pushNum, .num 4⟩, ⟨.halt, .num 0⟩]

/-- Final machine state of running `progHalt5`: five instructions executed
(`steps = 5`), yet no collection cycle ran (`gcAt = []`). -/
def machHalt5 : Mach :=
  { stack := [3, 2, 1, 0]
    objects := [(0, ⟨false, .number 1⟩), (1, ⟨false, .number 2⟩),
                (2, ⟨false, .number 3⟩), (3, ⟨false, .number 4⟩)]
    nextId := 4, events := [.haltMsg], steps := 5, gcAt := [] }

/-- Six-instruction program: five pushes, then `HALT`; a collection cycle
runs right after the fifth push. -/
def progColl : List Instruction :=
  [⟨.pushNum, .num 1⟩, ⟨.pushNum, .num 2⟩, ⟨.pushNum, .num 3⟩,
   ⟨.pushNum, .num 4⟩, ⟨.pushNum, .num 5⟩, ⟨.halt, .num 0⟩]

/-- Final machine state of running `progColl`: the collection cycle ran when
the executed-instruction count was 5 (`gcAt = [5]`). -/
def machColl : Mach :=
  { stack := [4, 3, 2, 1, 0]
    objects := [(0, ⟨false, .number 1⟩), (1, ⟨false, .number 2⟩),
                (2, ⟨false, .number 3⟩), (3, ⟨false, .number 4⟩),
                (4, ⟨false, .number 5⟩)]
    nextId := 5, events := [.gcDone, .haltMsg], steps := 6, gcAt := [5] }

/-- Program consisting of a single `PRINT` on an empty stack. -/
def progUnder : List Instruction := [⟨.print, .num 0⟩]

/-- A two-object heap used by the collector witnesses: handle 0 and 1, both
unmarked, with number payloads 1 and 2. -/
def objsW : List (Nat × GCObject) :=
  [(0, ⟨false, .number 1⟩), (1, ⟨false, .number 2⟩)]

/-- A machine whose stack holds handle 0 only, over the heap `objsW`. -/
def machRoots : Mach :=
  { stack := [0], objects := objsW, nextId := 2, events := [], steps := 0, gcAt := [] }

/-- A machine state ready to execute `ADD` on `Number 10` and `Number 20`. -/
def machAdd : Mach :=
  { stack := [1, 0]
    objects := [(0, ⟨false, .number 10⟩), (1, ⟨false, .number 20⟩)]
    nextId := 2, events := [], steps := 2, gcAt := [] }

/-- A VM whose instruction pointer has advanced to 3 (e.g. after a run). -/
def vmAt3 : KryptonVM.State :=
  { bytecode := [⟨.halt, .num 0⟩], ip := 3, mach := KryptonVM.initMach }

/-! ## Garbage-collector lemmas -/

/-- The two passes of `collect` (mark, then sweep) fuse into one pass:
an object survives the cycle exactly when its handle is in the root set or
its mark bit was already set on entry, and each survivor comes out with its
mark bit reset and payload untouched. -/
theorem collect_eq_filterMap (roots : List Nat) (objs : List (Nat × GCObject)) :
    GarbageCollector.collect roots objs =
      objs.filterMap fun q =>
        if q.1 ∈ roots ∨ q.2.marked = true then
          some (q.1, { q.2 with marked := false })
        else none := by
  induction objs with
  | nil => rfl
  | cons q t ih =>
    obtain ⟨i, mk, pl⟩ := q
    simp only [GarbageCollector.collect, GarbageCollector.markRoots,
      GarbageCollector.sweep, List.map_cons, List.filterMap_cons] at *
    by_cases hr : i ∈ roots
    · simp [hr, ih]
    · by_cases hm : mk
      · subst hm; simp [hr, ih]
      · simp at hm; subst hm; simp [hr, ih]

/-- Membership in the result of a collection cycle, characterised. -/
theorem mem_collect_iff (roots : List Nat) (objs : List (Nat × GCObject))
    (p : Nat × GCObject) :
    p ∈ GarbageCollector.collect roots objs ↔
      ∃ q ∈ objs, (q.1 ∈ roots ∨ q.2.marked = true) ∧
        p = (q.1, { q.2 with marked := false }) := by
  rw [collect_eq_filterMap, List.mem_filterMap]
  constructor
  · rintro ⟨q, hq, hfq⟩
    by_cases hc : q.1 ∈ roots ∨ q.2.marked = true
    · rw [if_pos hc] at hfq
      exact ⟨q, hq, hc, (Option.some.injEq _ _ ▸ hfq).symm⟩
    · rw [if_neg hc] at hfq
      exact absurd hfq (by simp)
  · rintro ⟨q, hq, hc, rfl⟩
    exact ⟨q, hq, by rw [if_pos hc]⟩

/-- Every object present after a sweep has its mark bit reset. -/
theorem marked_false_of_mem_sweep (objs : List (Nat × GCObject))
    (p : Nat × GCObject) (hp : p ∈ GarbageCollector.sweep objs) :
    p.2.marked = false := by
  unfold GarbageCollector.sweep at hp
  rw [List.mem_filterMap] at hp
  obtain ⟨q, _, hq⟩ := hp
  by_cases hm : q.2.marked
  · rw [if_pos hm] at hq
    obtain rfl := (Option.some.injEq _ _ ▸ hq)
    rfl
  · rw [if_neg hm] at hq
    exact absurd hq (by simp)

/-- Every object present after a collection cycle has its mark bit reset. -/
theorem marked_false_of_mem_collect (roots : List Nat)
    (objs : List (Nat × GCObject)) (p : Nat × GCObject)
    (hp : p ∈ GarbageCollector.collect roots objs) : p.2.marked = false :=
  marked_false_of_mem_sweep _ p hp

/-- When every tracked object is unmarked on entry, survivors of a collection
cycle are exactly rooted, and still unmarked. -/
theorem mem_collect_of_unmarked (roots : List Nat) (objs : List (Nat × GCObject))
    (hunm : ∀ p ∈ objs, p.2.marked = false) (p : Nat × GCObject)
    (hp : p ∈ GarbageCollector.collect roots objs) :
    p.1 ∈ roots ∧ p.2.marked = false := by
  rw [mem_collect_iff] at hp
  obtain ⟨q, hq, hc, rfl⟩ := hp
  rcases hc with hc | hc
  · exact ⟨hc, rfl⟩
  · rw [hunm q hq] at hc; exact absurd hc (by simp)

/-- A list of unmarked objects all of whose handles are rooted is a fixed
point of a collection cycle. -/
theorem collect_fixed (roots : List Nat) (l : List (Nat × GCObject))
    (hl : ∀ p ∈ l, p.1 ∈ roots ∧ p.2.marked = false) :
    GarbageCollector.collect roots l = l := by
  induction l with
  | nil => rfl
  | cons q t ih =>
    obtain ⟨i, mk, pl⟩ := q
    obtain ⟨hq1, hq2⟩ := hl (i, ⟨mk, pl⟩) (List.mem_cons_self _ _)
    simp only at hq2
    subst hq2
    rw [collect_eq_filterMap] at *
    rw [List.filterMap_cons]
    simp only [hq1, true_or, if_pos]
    rw [ih fun p hp => hl p (List.mem_cons_of_mem _ hp)]

/-! ## Step lemmas for the run loop -/

/-- A successfully executed non-terminating instruction increments the
executed-instruction counter by one, records no collection, and is not
`OP_HALT`. -/
theorem execInstr_next (i : Instruction) (m m' : Mach)
    (h : KryptonVM.execInstr i m = .ok (.next m')) :
    m'.steps = m.steps + 1 ∧ m'.gcAt = m.gcAt ∧ i.code ≠ OpCode.halt := by
  obtain ⟨c, op⟩ := i
  cases c <;>
    simp only [KryptonVM.execInstr] at h <;>
    (repeat' split at h) <;>
    simp_all [KryptonVM.pushMach, GarbageCollector.track] <;>
    (subst h; simp)

/-- An executed `OP_HALT` increments the executed-instruction counter by one
and records no collection. -/
theorem execInstr_halted (i : Instruction) (m m' : Mach)
    (h : KryptonVM.execInstr i m = .ok (.halted m')) :
    m'.steps = m.steps + 1 ∧ m'.gcAt = m.gcAt ∧ i.code = OpCode.halt := by
  obtain ⟨c, op⟩ := i
  cases c <;>
    simp only [KryptonVM.execInstr] at h <;>
    (repeat' split at h) <;>
    simp_all [KryptonVM.pushMach, GarbageCollector.track] <;>
    (subst h; simp)

/-- Inductive characterisation of the collection trigger along the run loop:
starting from a machine whose executed-instruction counter agrees with `ip`,
a completed run extends `gcAt` with exactly those counts `n` in range whose
instruction was successfully executed, is not `OP_HALT`, and for which
`n % 5 = 0`. -/
theorem runAux_gcAt (bc : List Instruction) :
    ∀ (fuel ip : Nat) (m : Mach) (ipf : Nat) (mf : Mach),
      m.steps = ip → ip ≤ bc.length →
      KryptonVM.runAux bc fuel ip m = .ok (ipf, mf) →
      ip ≤ mf.steps ∧ mf.steps ≤ bc.length ∧
        ∀ n, n ∈ mf.gcAt ↔ (n ∈ m.gcAt ∨ (ip < n ∧ n ≤ mf.steps ∧ n % 5 = 0 ∧
          ∃ h : n - 1 < bc.length, (bc.get ⟨n - 1, h⟩).code ≠ OpCode.halt)) := by
  intro fuel
  induction fuel with
  | zero =>
    intro ip m ipf mf hsteps hip hrun
    simp only [KryptonVM.runAux, Except.ok.injEq, Prod.mk.injEq] at hrun
    obtain ⟨rfl, rfl⟩ := hrun
    refine ⟨hsteps.ge, hsteps.le.trans hip, fun n => ?_⟩
    constructor
    · exact Or.inl
    · rintro (hn | ⟨hn1, hn2, -⟩)
      · exact hn
      · omega
  | succ k ih =>
    intro ip m ipf mf hsteps hip hrun
    simp only [KryptonVM.runAux] at hrun
    by_cases h : ip < bc.length
    · rw [dif_pos h] at hrun
      cases hexec : KryptonVM.execInstr (bc.get ⟨ip, h⟩) m with
      | error e => rw [hexec] at hrun; exact absurd hrun (by simp)
      | ok r =>
        cases r with
        | halted m1 =>
          rw [hexec] at hrun
          simp only [Except.ok.injEq, Prod.mk.injEq] at hrun
          obtain ⟨rfl, rfl⟩ := hrun
          obtain ⟨hst, hgc, hhalt⟩ := execInstr_halted _ _ _ hexec
          refine ⟨by omega, by omega, fun n => ?_⟩
          rw [hgc]
          constructor
          · exact Or.inl
          · rintro (hn | ⟨hn1, hn2, hn3, hlt, hne⟩)
            · exact hn
            · exfalso
              have hn4 : n = ip + 1 := by omega
              subst hn4
              have : bc.get ⟨ip + 1 - 1, hlt⟩ = bc.get ⟨ip, h⟩ := by
                congr 1
              exact hne (this ▸ hhalt)
        | next m1 =>
          rw [hexec] at hrun
          simp only at hrun
          obtain ⟨hst, hgc, hhalt⟩ := execInstr_next _ _ _ hexec
          by_cases h5 : (ip + 1) % 5 = 0
          · rw [if_pos h5] at hrun
            obtain ⟨ih1, ih2, ih3⟩ := ih (ip + 1) (KryptonVM.collectStep m1) ipf mf
              (by simp [KryptonVM.collectStep]; omega) (by omega) hrun
            refine ⟨by omega, ih2, fun n => ?_⟩
            rw [ih3 n]
            simp only [KryptonVM.collectStep, hgc, hst, hsteps, List.mem_append,
              List.mem_singleton]
            constructor
            · rintro ((hn | rfl) | ⟨hn1, hn2, hn3, hn4⟩)
              · exact Or.inl hn
              · refine Or.inr ⟨by omega, by omega, h5, ⟨by omega, ?_⟩⟩
                have : bc.get ⟨ip + 1 - 1, by omega⟩ = bc.get ⟨ip, h⟩ := by
                  congr 1
                rw [this]
                exact hhalt
              · exact Or.inr ⟨by omega, hn2, hn3, hn4⟩
            · rintro (hn | ⟨hn1, hn2, hn3, hn4⟩)
              · exact Or.inl (Or.inl hn)
              · by_cases heq : n = ip + 1
                · exact Or.inl (Or.inr heq)
                · exact Or.inr ⟨by omega, hn2, hn3, hn4⟩
          · rw [if_neg h5] at hrun
            obtain ⟨ih1, ih2, ih3⟩ := ih (ip + 1) m1 ipf mf (by omega) (by omega) hrun
            refine ⟨by omega, ih2, fun n => ?_⟩
            rw [ih3 n, hgc]
            constructor
            · rintro (hn | ⟨hn1, hn2, hn3, hn4⟩)
              · exact Or.inl hn
              · exact Or.inr ⟨by omega, hn2, hn3, hn4⟩
            · rintro (hn | ⟨hn1, hn2, hn3, hn4⟩)
              · exact Or.inl hn
              · refine Or.inr ⟨?_, hn2, hn3, hn4⟩
                rcases Nat.lt_or_ge (ip + 1) n with hlt | hge
                · exact hlt
                · exfalso
                  have : n = ip + 1 := by omega
                  subst this
                  exact h5 hn3
    · rw [dif_neg h] at hrun
      simp only [Except.ok.injEq, Prod.mk.injEq] at hrun
      obtain ⟨rfl, rfl⟩ := hrun
      refine ⟨hsteps.ge, hsteps.le.trans hip, fun n => ?_⟩
      constructor
      · exact Or.inl
      · rintro (hn | ⟨hn1, hn2, -⟩)
        · exact hn
        · omega

/-! ## Claim theorems -/

/-- C1: for every call to `GarbageCollector::collect` with the operand stack
as root set (such calls always find every mark bit `false`, the state every
object is created in and every sweep re-establishes), every tracked object
whose handle is referenced by the root set is still tracked afterwards with
its entry — payload included — unchanged, and no object whose handle is not
referenced by the root set remains tracked. -/
theorem collect_root_preservation (roots : List Nat) (objs : List (Nat × GCObject))
    (hunm : ∀ p ∈ objs, p.2.marked = false) :
    (∀ p ∈ objs, p.1 ∈ roots → p ∈ GarbageCollector.collect roots objs) ∧
    (∀ p ∈ objs, p.1 ∉ roots → ∀ o : GCObject,
      (p.1, o) ∉ GarbageCollector.collect roots objs) := by
  constructor
  · intro p hp hr
    rw [mem_collect_iff]
    refine ⟨p, hp, Or.inl hr, ?_⟩
    obtain ⟨i, mk, pl⟩ := p
    have : mk = false := hunm (i, ⟨mk, pl⟩) hp
    subst this
    rfl
  · intro p hp hr o ho
    have := mem_collect_of_unmarked roots objs hunm (p.1, o) ho
    exact hr this.1

/-- Witness for C1 at a concrete heap: with roots `[0]` over `objsW`,
handle 0 survives with unchanged payload and handle 1 is dropped. -/
theorem collect_root_preservation_witness :
    ((0, ⟨false, .number 1⟩) : Nat × GCObject) ∈ GarbageCollector.collect [0] objsW ∧
    ((1, ⟨false, .number 2⟩) : Nat × GCObject) ∉ GarbageCollector.collect [0] objsW :=
  ⟨(collect_root_preservation [0] objsW (by decide)).1
      (0, ⟨false, .number 1⟩) (by decide) (by decide),
   (collect_root_preservation [0] objsW (by decide)).2
      (1, ⟨false, .number 2⟩) (by decide) (by decide) ⟨false, .number 2⟩⟩

/-- C4: immediately after any sweep — run directly, or as the second phase of
a collection cycle — the mark bit of every tracked object is `false`:
survivors are reset and nothing exits the cycle marked. -/
theorem sweep_leaves_no_marks (roots : List Nat) (objs : List (Nat × GCObject)) :
    (∀ p ∈ GarbageCollector.sweep objs, p.2.marked = false) ∧
    (∀ p ∈ GarbageCollector.collect roots objs, p.2.marked = false) :=
  ⟨fun p hp => marked_false_of_mem_sweep objs p hp,
   fun p hp => marked_false_of_mem_collect roots objs p hp⟩

/-- Witness for C4 at a concrete heap: handle 0 survives collection over
`objsW` with roots `[0]`, and its mark bit is `false`. -/
theorem sweep_leaves_no_marks_witness :
    (⟨false, .number 1⟩ : GCObject).marked = false :=
  (sweep_leaves_no_marks [0] objsW).2 (0, ⟨false, .number 1⟩) (by decide)

/-- C6: running `collect` twice in succession with an unchanged root set and
no intervening allocation leaves the tracked set unchanged the second time
(the hypothesis that every mark bit is `false` on entry is the state every
call in the program finds: objects are created unmarked and every sweep
resets survivors). -/
theorem collect_idempotent (roots : List Nat) (objs : List (Nat × GCObject))
    (hunm : ∀ p ∈ objs, p.2.marked = false) :
    GarbageCollector.collect roots (GarbageCollector.collect roots objs) =
      GarbageCollector.collect roots objs :=
  collect_fixed roots _ fun p hp => mem_collect_of_unmarked roots objs hunm p hp

/-- Witness for C6 at a concrete heap: collecting `objsW` twice with
roots `[0]` equals collecting it once. -/
theorem collect_idempotent_witness :
    GarbageCollector.collect [0] (GarbageCollector.collect [0] objsW) =
      GarbageCollector.collect [0] objsW :=
  collect_idempotent [0] objsW (by decide)

/-- C10: a collection cycle invoked from the run loop never modifies the root
sequence it is given — the operand stack holds exactly the same handles in
the same order afterwards (the C++ `collect` receives the stack by reference
and only reads it) — and when it returns every tracked object's mark bit has
been reset. -/
theorem collect_frame (m : Mach) :
    (KryptonVM.collectStep m).stack = m.stack ∧
    (∀ p ∈ (KryptonVM.collectStep m).objects, p.2.marked = false) :=
  ⟨rfl, fun p hp => marked_false_of_mem_collect m.stack m.objects p hp⟩

/-- Witness for C10 at a concrete machine: the stack of `machRoots` is
untouched by the collection cycle, and the surviving object is unmarked. -/
theorem collect_frame_witness :
    (KryptonVM.collectStep machRoots).stack = machRoots.stack ∧
    (⟨false, .number 1⟩ : GCObject).marked = false :=
  ⟨(collect_frame machRoots).1,
   (collect_frame machRoots).2 (0, ⟨false, .number 1⟩) (by decide)⟩

/-- C3, counterexample to the claim as stated: running `progHalt5` executes
five instructions (`steps = 5`, a multiple of 5), yet no collection cycle
occurs (`gcAt = []`): `OP_HALT` returns from `run` before the periodic
`if (ip % 5 == 0) gc.collect(stack);` check, so the count reaching a
multiple of 5 does not imply a collection. -/
theorem gc_skipped_when_fifth_is_halt :
    KryptonVM.run progHalt5 = .ok (4, machHalt5) ∧
      machHalt5.steps = 5 ∧ 5 % 5 = 0 ∧ machHalt5.gcAt = [] := by decide

/-- C3, amended: in a completed run, a collection cycle (with the current
operand stack as root set — see `KryptonVM.collectStep`) occurs exactly at
those executed-instruction counts `n` that are positive multiples of 5,
within the run, and whose `n`-th executed instruction is not `OP_HALT`
(`OP_HALT` returns before the periodic check). -/
theorem gc_cadence (bc : List Instruction) (ipf : Nat) (mf : Mach)
    (hrun : KryptonVM.run bc = .ok (ipf, mf)) :
    ∀ n, n ∈ mf.gcAt ↔ (0 < n ∧ n ≤ mf.steps ∧ n % 5 = 0 ∧
      ∃ h : n - 1 < bc.length, (bc.get ⟨n - 1, h⟩).code ≠ OpCode.halt) := by
  intro n
  obtain ⟨-, -, hiff⟩ :=
    runAux_gcAt bc bc.length 0 KryptonVM.initMach ipf mf rfl (Nat.zero_le _) hrun
  rw [hiff n]
  simp [KryptonVM.initMach]

/-- Witness for C3 at a concrete run: in `progColl` the collection cycle
recorded at count 5 satisfies the amended characterisation. -/
theorem gc_cadence_witness :
    5 ∈ machColl.gcAt ↔ (0 < 5 ∧ 5 ≤ machColl.steps ∧ 5 % 5 = 0 ∧
      ∃ h : 5 - 1 < progColl.length, (progColl.get ⟨5 - 1, h⟩).code ≠ OpCode.halt) :=
  gc_cadence progColl 5 machColl (by decide) 5

/-- C5: popping from an empty operand stack always fails with
`StackUnderflow` (no out-of-bounds read: `pop` returns the error instead of
touching memory), and when it happens inside the run loop (here: an `OP_ADD`
or `OP_PRINT` fetched with an empty stack) the whole run terminates
immediately with that error surfaced to the caller — no further instruction
executes. -/
theorem pop_underflow_fatal :
    KryptonVM.pop [] = .error .stackUnderflow ∧
    ∀ (bc : List Instruction) (fuel ip : Nat) (m : Mach) (h : ip < bc.length),
      m.stack = [] →
      ((bc.get ⟨ip, h⟩).code = OpCode.add ∨ (bc.get ⟨ip, h⟩).code = OpCode.print) →
      KryptonVM.runAux bc (fuel + 1) ip m = .error .stackUnderflow := by
  refine ⟨rfl, ?_⟩
  intro bc fuel ip m h hstack hcode
  have hexec : KryptonVM.execInstr (bc.get ⟨ip, h⟩) m = .error .stackUnderflow := by
    rcases hcode with hc | hc <;>
      simp only [KryptonVM.execInstr, hc, hstack, KryptonVM.pop]
  simp only [KryptonVM.runAux, dif_pos h, hexec]

/-- Witness for C5: running the one-instruction program `PRINT` on a fresh VM
(empty stack) fails with `StackUnderflow`. -/
theorem pop_underflow_fatal_witness :
    KryptonVM.run progUnder = .error .stackUnderflow :=
  pop_underflow_fatal.2 progUnder 0 0 KryptonVM.initMach (by decide) rfl
    (Or.inr rfl)

/-- C2, failing input: the emitted `MUL` in `PUSH_NUM 6; PUSH_NUM 7; MUL`
has no case in the dispatch switch and hits `default: break`, so the run
completes leaving both operands on the stack (`Number 6`, `Number 7`)
instead of popping them and pushing `Number 42`; the claimed MUL/SUB/DIV
stack effect does not hold in the code. -/
theorem mul_emitted_but_noop :
    KryptonVM.run progMul = .ok (3, machMul) ∧ machMul.stack.length = 2 := by
  decide

/-- C7, failing input: executing `PUSH_NUM 1; PUSH_NUM 0; DIV` — a division
with divisor 0 — completes successfully (`DIV` hits `default: break`): no
`DivisionByZero` error is raised and the run is not halted, contradicting
the claim. -/
theorem div_by_zero_noop :
    KryptonVM.run progDiv = .ok (3, machDiv) ∧ machDiv.stack = [1, 0] := by
  decide

/-- C8, counterexample: `loadProgram` called on a VM whose instruction
pointer is 3 leaves it at 3 — the claim that it resets `ip` to 0 is false
(`loadProgram` only assigns `bytecode`). -/
theorem loadProgram_keeps_ip :
    (KryptonVM.loadProgram vmAt3 [⟨.pushNum, .num 1⟩]).ip = 3 ∧
    (KryptonVM.loadProgram vmAt3 [⟨.pushNum, .num 1⟩]).ip ≠ 0 := by decide

/-- C8, amended: for every VM state, `loadProgram` replaces any previously
loaded program with the given instruction sequence and leaves all other
state — the instruction pointer included — unchanged (`ip` is 0 only because
a freshly constructed VM initialises it to 0). -/
theorem loadProgram_spec (vm : KryptonVM.State) (p : List Instruction) :
    (KryptonVM.loadProgram vm p).bytecode = p ∧
    (KryptonVM.loadProgram vm p).ip = vm.ip ∧
    (KryptonVM.loadProgram vm p).mach = vm.mach :=
  ⟨rfl, rfl, rfl⟩

/-- C9: executing `OP_ADD` on a machine whose two top stack entries are
handles of tracked `Number` objects pops `b` (the top), then pops `a`, and
pushes a newly allocated `Number` with value `a + b`, registered in the heap
tracker (appended to the registry) at creation. -/
theorem add_semantics (m : Mach) (bId aId : Nat) (rest : List Nat)
    (oa ob : GCObject) (a b : Rat) (op : Operand)
    (hs : m.stack = bId :: aId :: rest)
    (ha : KryptonVM.findObj aId m.objects = some oa)
    (hpa : oa.payload = .number a)
    (hb : KryptonVM.findObj bId m.objects = some ob)
    (hpb : ob.payload = .number b) :
    KryptonVM.execInstr ⟨.add, op⟩ m =
      .ok (.next { m with
        stack := m.nextId :: rest
        objects := m.objects ++ [(m.nextId, ⟨false, .number (a + b)⟩)]
        nextId := m.nextId + 1
        steps := m.steps + 1 }) := by
  obtain ⟨ma, pa⟩ := oa
  obtain ⟨mb, pb⟩ := ob
  simp only at hpa hpb
  subst hpa hpb
  simp [KryptonVM.execInstr, hs, KryptonVM.pop, ha, hb, KryptonVM.asNumber,
    KryptonVM.pushMach, GarbageCollector.track]

/-- Witness for C9 at a concrete machine: `ADD` on `machAdd` (top `Number
20`, below it `Number 10`) pushes a fresh tracked `Number 30`. -/
theorem add_semantics_witness :
    KryptonVM.execInstr ⟨.add, .num 0⟩ machAdd =
      .ok (.next { machAdd with
        stack := machAdd.nextId :: []
        objects := machAdd.objects ++ [(machAdd.nextId, ⟨false, .number (10 + 20)⟩)]
        nextId := machAdd.nextId + 1
        steps := machAdd.steps + 1 }) :=
  add_semantics machAdd 1 0 [] ⟨false, .number 10⟩ ⟨false, .number 20⟩ 10 20
    (.num 0) rfl (by decide) rfl (by decide) rfl

end Krypton
